import Mathlib

/-!
# Verification of `big-complex.js` (arbitrary-precision complex numbers)

This file embeds the Complex value type of the repository in Lean 4.
The repository contains two parallel implementations of the same class:

* `src/complex.js`       — instance methods over `decimal.js` values
  (namespace `Cjs` below);
* `src/unnamed/part_001` — static methods over `mathjs` bignumbers, which
  are `decimal.js` values as well (namespace `Mjs` below).

The arbitrary-precision real engine (`decimal.js`) is external to the
repository (the specification lists it as out of scope and treats it as a
black box with exact numeric semantics).  We model an engine value by
`DecVal`: a finite rational, `+Infinity`, `-Infinity`, or `NaN`.  Finite
arithmetic is modelled exactly (the idealisation of the engine at
unbounded precision; signed zeros are merged, which `eq` cannot
distinguish anyway); `NaN` and the infinities follow the engine's
documented IEEE-754-like rules.  The engine's transcendental primitives
(`sqrt`, `ln`, `exp`, `sin`, `cos`, `asin`, `acos`, `atan2`, `hypot`,
string formatting, and power at a non-integer exponent) are taken as
parameters, collected in the structure `Engine`; power at an integer
exponent is modelled exactly (`decPowI`).  All theorems about code paths
that do not consult these primitives hold for every engine; theorems that
depend on them carry explicit accuracy hypotheses.
-/

/-- A value of the arbitrary-precision real engine: a finite (exact)
rational, one of the two infinities, or `NaN`. -/
inductive DecVal : Type
  | fin (q : ℚ)
  | posInf
  | negInf
  | nan
deriving DecidableEq, Repr

namespace DecVal

/-- Engine negation (`neg`). -/
def dneg : DecVal → DecVal
  | fin q => fin (-q)
  | posInf => negInf
  | negInf => posInf
  | nan => nan

/-- Engine absolute value (`abs`). -/
def dabs : DecVal → DecVal
  | fin q => fin |q|
  | posInf => posInf
  | negInf => posInf
  | nan => nan

/-- Engine addition (`add`): `NaN` is absorbing, opposite infinities give `NaN`. -/
def dadd : DecVal → DecVal → DecVal
  | nan, _ => nan
  | _, nan => nan
  | fin a, fin b => fin (a + b)
  | fin _, posInf => posInf
  | fin _, negInf => negInf
  | posInf, fin _ => posInf
  | negInf, fin _ => negInf
  | posInf, posInf => posInf
  | negInf, negInf => negInf
  | posInf, negInf => nan
  | negInf, posInf => nan

/-- Engine subtraction (`sub`), i.e. addition of the negation. -/
def dsub (a b : DecVal) : DecVal := dadd a (dneg b)

/-- Engine multiplication (`mul`): zero times an infinity is `NaN`,
infinities multiply by sign. -/
def dmul : DecVal → DecVal → DecVal
  | nan, _ => nan
  | _, nan => nan
  | fin a, fin b => fin (a * b)
  | fin a, posInf => if a = 0 then nan else if 0 < a then posInf else negInf
  | fin a, negInf => if a = 0 then nan else if 0 < a then negInf else posInf
  | posInf, fin b => if b = 0 then nan else if 0 < b then posInf else negInf
  | negInf, fin b => if b = 0 then nan else if 0 < b then negInf else posInf
  | posInf, posInf => posInf
  | negInf, negInf => posInf
  | posInf, negInf => negInf
  | negInf, posInf => negInf

/-- Engine division (`div`): `x/0` is a signed infinity for `x ≠ 0` and
`NaN` for `x = 0`; a finite value over an infinity is `0`; an infinity
over an infinity is `NaN`. -/
def ddiv : DecVal → DecVal → DecVal
  | nan, _ => nan
  | _, nan => nan
  | fin a, fin b =>
      if b = 0 then (if a = 0 then nan else if 0 < a then posInf else negInf)
      else fin (a / b)
  | fin _, posInf => fin 0
  | fin _, negInf => fin 0
  | posInf, fin b => if 0 ≤ b then posInf else negInf
  | negInf, fin b => if 0 ≤ b then negInf else posInf
  | posInf, posInf => nan
  | posInf, negInf => nan
  | negInf, posInf => nan
  | negInf, negInf => nan

/-- Engine equality test (`eq` / `equals`): any comparison involving
`NaN` is false; the infinities are equal to themselves. -/
def deq : DecVal → DecVal → Bool
  | fin a, fin b => a = b
  | posInf, posInf => true
  | negInf, negInf => true
  | _, _ => false

/-- Engine strict order (`lessThan`): false on any `NaN` operand. -/
def dlt : DecVal → DecVal → Bool
  | nan, _ => false
  | _, nan => false
  | fin a, fin b => a < b
  | fin _, posInf => true
  | fin _, negInf => false
  | posInf, _ => false
  | negInf, fin _ => true
  | negInf, posInf => true
  | negInf, negInf => false

/-- Engine non-strict order (`lessThanOrEqualTo`): false on any `NaN` operand. -/
def dle : DecVal → DecVal → Bool
  | nan, _ => false
  | _, nan => false
  | fin a, fin b => a ≤ b
  | fin _, posInf => true
  | fin _, negInf => false
  | posInf, posInf => true
  | posInf, _ => false
  | negInf, _ => true

/-- Engine `greaterThan`. -/
def dgt (a b : DecVal) : Bool := dlt b a

/-- Engine `greaterThanOrEqualTo` (`gte`). -/
def dge (a b : DecVal) : Bool := dle b a

/-- Engine integer test (`isInt`): true exactly on finite values with
denominator 1. -/
def disInt : DecVal → Bool
  | fin q => q.den = 1
  | _ => false

/-- Truncation of a rational toward zero, computed from the reduced
numerator and denominator. -/
def ratTrunc (q : ℚ) : ℤ := Int.sign q.num * (q.num.natAbs / q.den : ℕ)

/-- Engine remainder (`mod`): truncated (JavaScript-style) remainder.
A zero or `NaN` divisor and an infinite dividend give `NaN`; a finite
value modulo an infinity is the value itself. -/
def dmod : DecVal → DecVal → DecVal
  | nan, _ => nan
  | _, nan => nan
  | posInf, _ => nan
  | negInf, _ => nan
  | fin a, fin b => if b = 0 then nan else fin (a - b * (ratTrunc (a / b) : ℚ))
  | fin a, posInf => fin a
  | fin a, negInf => fin a

/-- Engine power at an integer exponent, exact: `x^0 = 1` for non-`NaN`
`x`, `0` raised to a negative power is `+Infinity`, infinities follow
sign and parity. -/
def dpowI : DecVal → ℤ → DecVal
  | nan, _ => nan
  | posInf, n => if n = 0 then fin 1 else if 0 < n then posInf else fin 0
  | negInf, n =>
      if n = 0 then fin 1
      else if 0 < n then (if n % 2 = 0 then posInf else negInf)
      else fin 0
  | fin q, n =>
      if n = 0 then fin 1
      else if q = 0 ∧ n < 0 then posInf
      else fin (q ^ n)

/-- Force the sign field of a value negative (`v.s = -1`): the result is
the negated absolute value.  `NaN` is unaffected. -/
def dforceNeg : DecVal → DecVal
  | fin q => fin (-|q|)
  | posInf => negInf
  | negInf => negInf
  | nan => nan

/-- Force the sign field of a value positive (`v.s = 1`): the result is
the absolute value.  `NaN` is unaffected. -/
def dforcePos : DecVal → DecVal
  | fin q => fin |q|
  | posInf => posInf
  | negInf => posInf
  | nan => nan

/-- The sign field of a value: `false` for nonnegative, `true` for
negative, `none` for `NaN` (whose sign field is itself `NaN`). -/
def dsign : DecVal → Option Bool
  | fin q => some (decide (q < 0))
  | posInf => some false
  | negInf => some true
  | nan => none

/-- Set the sign field of a value from another value's sign field
(`result.s = source.s`): copying a `NaN` sign yields `NaN`. -/
def dcopySign (t s : DecVal) : DecVal :=
  match dsign s with
  | none => nan
  | some true => dforceNeg t
  | some false => dforcePos t

end DecVal

open DecVal

/-- The engine primitives that the Complex layer consumes as a black box:
the transcendental functions, power at a non-integer exponent, the
constant `e = exp(1)`, and decimal string formatting.  The repository
never looks inside these. -/
structure Engine : Type where
  sqrt : DecVal → DecVal
  ln : DecVal → DecVal
  exp1 : DecVal
  powR : DecVal → DecVal → DecVal
  sin : DecVal → DecVal
  cos : DecVal → DecVal
  sinh : DecVal → DecVal
  cosh : DecVal → DecVal
  asin : DecVal → DecVal
  acos : DecVal → DecVal
  atan2 : DecVal → DecVal → DecVal
  hypot : DecVal → DecVal → DecVal
  toStr : DecVal → String

/-- Engine `pow`: exact at integer exponents (`disInt`), delegated to the
engine primitive `powR` otherwise. -/
def dpow (E : Engine) (b e : DecVal) : DecVal :=
  match e with
  | DecVal.fin q => if q.den = 1 then dpowI b q.num else E.powR b (DecVal.fin q)
  | _ => E.powR b e

/-- A complex number: two engine values, the real and imaginary parts. -/
structure SComplex : Type where
  re : DecVal
  im : DecVal
deriving DecidableEq, Repr

/-- The constant `PI_OVER_TWO` of `src/constants.js`: `ZERO.acos()`. -/
def cjsPiOverTwo (E : Engine) : DecVal := E.acos (DecVal.fin 0)

/-- The constant `PI_OVER_TWO` of the constants module used by
`src/unnamed/part_001` (`src/unnamed/part_002`): `Decimal.acos(-1).div(2)`. -/
def mjsPiOverTwo (E : Engine) : DecVal := ddiv (E.acos (DecVal.fin (-1))) (DecVal.fin 2)

/-! ## `src/complex.js` — the decimal.js instance-method implementation -/

namespace Cjs

/-- `Complex.prototype.eq` (src/complex.js:39): componentwise engine equality. -/
def eq (a b : SComplex) : Bool := deq a.re b.re && deq a.im b.im

/-- `Complex.prototype.add` (src/complex.js:47). -/
def add (a b : SComplex) : SComplex := ⟨dadd a.re b.re, dadd a.im b.im⟩

/-- `Complex.prototype.sub` (src/complex.js:55). -/
def sub (a b : SComplex) : SComplex := ⟨dsub a.re b.re, dsub a.im b.im⟩

/-- `Complex.prototype.div` (src/complex.js:74). -/
def div (a b : SComplex) : SComplex :=
  let denominatorSum := dadd (dpowI b.re 2) (dpowI b.im 2)
  ⟨ddiv (dadd (dmul a.re b.re) (dmul a.im b.im)) denominatorSum,
   ddiv (dsub (dmul a.im b.re) (dmul a.re b.im)) denominatorSum⟩

/-- `Complex.prototype.recip` (src/complex.js:85). -/
def recip (a : SComplex) : SComplex :=
  let denominatorSum := dadd (dpowI a.re 2) (dpowI a.im 2)
  ⟨ddiv a.re denominatorSum, ddiv (dneg a.im) denominatorSum⟩

/-- `Complex.prototype.mod` (src/complex.js:146): `Decimal.hypot(re, im)`. -/
def modC (E : Engine) (a : SComplex) : DecVal := E.hypot a.re a.im

/-- `Complex.prototype.arg` (src/complex.js:153): `Decimal.atan2(im, re)`. -/
def arg (E : Engine) (a : SComplex) : DecVal := E.atan2 a.im a.re

/-- `Complex.prototype.pow` (src/complex.js:97): the integer-power-of-`i`
fast path followed by the general complex-exponentiation formula. -/
def pow (E : Engine) (a other : SComplex) : SComplex :=
  if deq a.re (DecVal.fin 0) && deq other.im (DecVal.fin 0) && disInt other.re then
    let p := dpow E a.im other.re
    if deq (dmod other.re (DecVal.fin 4)) (DecVal.fin 0) then
      ⟨p, DecVal.fin 0⟩
    else if deq (dmod (dadd other.re (DecVal.fin 1)) (DecVal.fin 4)) (DecVal.fin 0) then
      ⟨DecVal.fin 0, dmul (DecVal.fin (-1)) p⟩
    else if deq (dmod other.re (DecVal.fin 2)) (DecVal.fin 0) then
      ⟨dmul (DecVal.fin (-1)) p, DecVal.fin 0⟩
    else if deq (dmod (dadd other.re (DecVal.fin 3)) (DecVal.fin 4)) (DecVal.fin 0) then
      ⟨DecVal.fin 0, p⟩
    else
      generalPath E a other
  else
    generalPath E a other
where
  /-- The general path of `pow` (src/complex.js:114-125). -/
  generalPath (E : Engine) (a other : SComplex) : SComplex :=
    let r := modC E a
    let cArg := arg E a
    let leftFactor := dmul (dpow E r other.re) (dpow E E.exp1 (dneg (dmul other.im cArg)))
    let ratio := dadd (dmul other.re cArg)
      (ddiv (dmul other.im (E.ln (dpow E r (DecVal.fin 2)))) (DecVal.fin 2))
    ⟨dmul (E.cos ratio) leftFactor, dmul (E.sin ratio) leftFactor⟩

/-- `Complex.prototype.sqrt` (src/complex.js:131). -/
def sqrt (E : Engine) (a : SComplex) : SComplex :=
  if deq a.im (DecVal.fin 0) then
    if dge a.re (DecVal.fin 0) then ⟨E.sqrt a.re, DecVal.fin 0⟩
    else ⟨DecVal.fin 0, E.sqrt (dabs a.re)⟩
  else pow E a ⟨DecVal.fin (1/2 : ℚ), DecVal.fin 0⟩

/-- `Complex.prototype.ln` (src/complex.js:175). -/
def ln (E : Engine) (a : SComplex) : SComplex := ⟨E.ln (modC E a), arg E a⟩

/-- `Complex.prototype.log` (src/complex.js:168): `ln(this) / ln(n)` via
the static `Complex.divide`, which is the same division formula. -/
def log (E : Engine) (a n : SComplex) : SComplex := div (ln E a) (ln E n)

/-- `Complex.prototype.asin` (src/complex.js:284): the mathonweb formula
with the final branch-sign correction (`result.im.s = -1`). -/
def asin (E : Engine) (a : SComplex) : SComplex :=
  let rePositive := dpowI (dadd (DecVal.fin 1) a.re) 2
  let reNegative := dpowI (dsub (DecVal.fin 1) a.re) 2
  let imSquared := dpowI a.im 2
  let leftSquared := E.sqrt (dadd rePositive imSquared)
  let rightSquared := E.sqrt (dadd reNegative imSquared)
  let av := ddiv (dsub leftSquared rightSquared) (DecVal.fin 2)
  let bv := ddiv (dadd leftSquared rightSquared) (DecVal.fin 2)
  let result : SComplex :=
    ⟨E.asin av, E.ln (dadd bv (E.sqrt (dsub (dpowI bv 2) (DecVal.fin 1))))⟩
  if dlt a.im (DecVal.fin 0) || (dgt a.re (DecVal.fin 0) && dle a.im (DecVal.fin 0)) then
    ⟨result.re, dforceNeg result.im⟩
  else result

/-- `Complex.prototype.toString` (src/complex.js:476). -/
def toString (E : Engine) (a : SComplex) : String :=
  if deq a.im (DecVal.fin 0) then E.toStr a.re
  else if deq a.re (DecVal.fin 0) then E.toStr a.im ++ "i"
  else
    (E.toStr a.re ++
      (if dlt a.im (DecVal.fin 0) then " - " ++ E.toStr (dabs a.im)
       else " + " ++ E.toStr a.im)) ++ "i"


/-- `Complex.prototype.sin` (src/complex.js:236). -/
def sin (E : Engine) (a : SComplex) : SComplex :=
  ⟨dmul (E.sin a.re) (E.cosh a.im), dmul (E.cos a.re) (E.sinh a.im)⟩

/-- `Complex.prototype.cos` (src/complex.js:246). -/
def cos (E : Engine) (a : SComplex) : SComplex :=
  ⟨dmul (E.cos a.re) (E.cosh a.im), dneg (dmul (E.sin a.re) (E.sinh a.im))⟩

/-- `Complex.prototype.sinh` (src/complex.js:360). -/
def sinh (E : Engine) (a : SComplex) : SComplex :=
  ⟨dmul (E.sinh a.re) (E.cos a.im), dmul (E.cosh a.re) (E.sin a.im)⟩

/-- `Complex.prototype.cosh` (src/complex.js:370). -/
def cosh (E : Engine) (a : SComplex) : SComplex :=
  ⟨dmul (E.cosh a.re) (E.cos a.im), dmul (E.sinh a.re) (E.sin a.im)⟩

end Cjs

/-! ## `src/unnamed/part_001` — the mathjs static-method implementation

The static methods first pass their operands through
`Complex.convertToComplex`, which returns a `Complex` argument unchanged;
all inputs below are already `Complex`, so the coercion is the
identity and is omitted. -/

namespace Mjs

/-- `Complex.equals` (part_001:35). -/
def equals (c1 c2 : SComplex) : Bool := deq c1.re c2.re && deq c1.im c2.im

/-- `Complex.approxEquals` (part_001:40): both components within an
absolute tolerance of `1e-6`. -/
def approxEquals (c1 c2 : SComplex) : Bool :=
  dlt (dabs (dsub c1.re c2.re)) (DecVal.fin (1/1000000 : ℚ)) &&
  dlt (dabs (dsub c1.im c2.im)) (DecVal.fin (1/1000000 : ℚ))

/-- `Complex.subtract` (part_001:51). -/
def subtract (c1 c2 : SComplex) : SComplex := ⟨dsub c1.re c2.re, dsub c1.im c2.im⟩

/-- `Complex.multiply` (part_001:58). -/
def multiply (c1 c2 : SComplex) : SComplex :=
  ⟨dadd (dneg (dmul c1.im c2.im)) (dmul c1.re c2.re),
   dadd (dmul c1.im c2.re) (dmul c1.re c2.im)⟩

/-- `Complex.divide` (part_001:68). -/
def divide (c1 c2 : SComplex) : SComplex :=
  let denominatorSum := dadd (dpowI c2.re 2) (dpowI c2.im 2)
  ⟨ddiv (dadd (dmul c1.re c2.re) (dmul c1.im c2.im)) denominatorSum,
   ddiv (dsub (dmul c1.im c2.re) (dmul c1.re c2.im)) denominatorSum⟩

/-- `Complex.prototype.mod` (part_001:125): `hypot(real, imaginary)`. -/
def modC (E : Engine) (c : SComplex) : DecVal := E.hypot c.re c.im

/-- `Complex.prototype.arg` (part_001:130): `atan2(imaginary, real)`. -/
def arg (E : Engine) (c : SComplex) : DecVal := E.atan2 c.im c.re

/-- `Complex.exponent` (part_001:80): same two-path algorithm as
`Complex.prototype.pow` of src/complex.js. -/
def exponent (E : Engine) (c p : SComplex) : SComplex :=
  if deq c.re (DecVal.fin 0) && deq p.im (DecVal.fin 0) && disInt p.re then
    let pw := dpow E c.im p.re
    if deq (dmod p.re (DecVal.fin 4)) (DecVal.fin 0) then
      ⟨pw, DecVal.fin 0⟩
    else if deq (dmod (dadd p.re (DecVal.fin 1)) (DecVal.fin 4)) (DecVal.fin 0) then
      ⟨DecVal.fin 0, dmul (DecVal.fin (-1)) pw⟩
    else if deq (dmod p.re (DecVal.fin 2)) (DecVal.fin 0) then
      ⟨dmul (DecVal.fin (-1)) pw, DecVal.fin 0⟩
    else if deq (dmod (dadd p.re (DecVal.fin 3)) (DecVal.fin 4)) (DecVal.fin 0) then
      ⟨DecVal.fin 0, pw⟩
    else
      generalPath E c p
  else
    generalPath E c p
where
  /-- The general path of `Complex.exponent` (part_001:98-107). -/
  generalPath (E : Engine) (c p : SComplex) : SComplex :=
    let r := modC E c
    let cArg := arg E c
    let leftFactor := dmul (dpow E r p.re) (dpow E E.exp1 (dneg (dmul p.im cArg)))
    let ratio := dadd (dmul p.re cArg)
      (ddiv (dmul p.im (E.ln (dpow E r (DecVal.fin 2)))) (DecVal.fin 2))
    ⟨dmul (E.cos ratio) leftFactor, dmul (E.sin ratio) leftFactor⟩

/-- `Complex.asin` (part_001:205): same mathonweb formula and sign
correction as `Complex.prototype.asin` of src/complex.js. -/
def asinS (E : Engine) (c : SComplex) : SComplex :=
  let realPos := dpowI (dadd (DecVal.fin 1) c.re) 2
  let realNeg := dpowI (dsub (DecVal.fin 1) c.re) 2
  let imSquared := dpowI c.im 2
  let leftSquared := E.sqrt (dadd realPos imSquared)
  let rightSquared := E.sqrt (dadd realNeg imSquared)
  let av := ddiv (dsub leftSquared rightSquared) (DecVal.fin 2)
  let bv := ddiv (dadd leftSquared rightSquared) (DecVal.fin 2)
  let result : SComplex :=
    ⟨E.asin av, E.ln (dadd bv (E.sqrt (dsub (dpowI bv 2) (DecVal.fin 1))))⟩
  if dlt c.im (DecVal.fin 0) || (dgt c.re (DecVal.fin 0) && dle c.im (DecVal.fin 0)) then
    ⟨result.re, dforceNeg result.im⟩
  else result

/-- `Complex.acos` (part_001:228): `subtract(PI_OVER_TWO, asin(c))`, the
scalar constant being coerced to a complex with zero imaginary part. -/
def acosS (E : Engine) (c : SComplex) : SComplex :=
  subtract ⟨mjsPiOverTwo E, DecVal.fin 0⟩ (asinS E c)

/-- `Complex.atan` (part_001:232). -/
def atanS (E : Engine) (c : SComplex) : SComplex :=
  let realSquared := dpowI c.re 2
  let imSquared := dpowI c.im 2
  ⟨ddiv (E.atan2 (dmul c.re (DecVal.fin 2)) (dsub (dsub (DecVal.fin 1) realSquared) imSquared))
      (DecVal.fin 2),
   ddiv (E.ln (ddiv (dadd realSquared (dpowI (dadd (DecVal.fin 1) c.im) 2))
      (dadd realSquared (dpowI (dsub (DecVal.fin 1) c.im) 2)))) (DecVal.fin 4)⟩

/-- The class constant `Complex.i` (part_001:389). -/
def iC : SComplex := ⟨DecVal.fin 0, DecVal.fin 1⟩

/-- The class constant `Complex.neg_i` (part_001:390). -/
def negIC : SComplex := ⟨DecVal.fin 0, DecVal.fin (-1)⟩

/-- The class constant `Complex.infinity` (part_001:393): componentwise
`Infinity`. -/
def infinityC : SComplex := ⟨DecVal.posInf, DecVal.posInf⟩

/-- The class constant `Complex.nan` (part_001:392): componentwise `NaN`. -/
def nanC : SComplex := ⟨DecVal.nan, DecVal.nan⟩

/-- `Complex.asinh` (part_001:280): `neg_i * asin(i * c)` with the final
sign-field corrections on both components. -/
def asinhS (E : Engine) (c : SComplex) : SComplex :=
  let result := multiply negIC (asinS E (multiply iC c))
  let reFixed :=
    if deq c.re (DecVal.fin 0) && dlt c.im (DecVal.fin 0) then dforceNeg result.re
    else dcopySign result.re c.re
  ⟨reFixed, dcopySign result.im c.im⟩

/-- `Complex.acosh` (part_001:296):
`(sqrt(c-1)/sqrt(1-c)) * acos(c)` with both square roots taken through
`Complex.exponent` at exponent `1/2`. -/
def acoshS (E : Engine) (c : SComplex) : SComplex :=
  multiply
    (divide (exponent E (subtract c ⟨DecVal.fin 1, DecVal.fin 0⟩) ⟨DecVal.fin (1/2 : ℚ), DecVal.fin 0⟩)
      (exponent E (subtract ⟨DecVal.fin 1, DecVal.fin 0⟩ c) ⟨DecVal.fin (1/2 : ℚ), DecVal.fin 0⟩))
    (acosS E c)

/-- `Complex.atanh` (part_001:301): `neg_i * atan(i * c)`. -/
def atanhS (E : Engine) (c : SComplex) : SComplex :=
  multiply negIC (atanS E (multiply iC c))

/-- `Complex.acsch` (part_001:306).  On the real axis the zero-input
branch evaluates `c.INFINITY`: `c` is a `Complex` instance, whose only
properties are `real` and `imaginary`, so the access yields JavaScript
`undefined` and `new Complex(undefined, ZERO)` does not produce the
engine's `Infinity` value (the bignumber coercion of `undefined` is an
error/`NaN`, never `Infinity`).  That failing construction is modelled
as `none`. -/
def acschS (E : Engine) (c : SComplex) : Option SComplex :=
  if deq c.im (DecVal.fin 0) then
    if deq c.re (DecVal.fin 0) then none
    else some ⟨E.ln (dadd c.re (E.sqrt (dadd (dpowI c.re 2) (DecVal.fin 1)))), DecVal.fin 0⟩
  else
    let sum := dadd (dpowI c.re 2) (dpowI c.im 2)
    some (asinhS E ⟨ddiv c.re sum, dneg (ddiv c.im sum)⟩)

/-- `Complex.asech` (part_001:318). -/
def asechS (E : Engine) (c : SComplex) : SComplex :=
  let imIsZero := deq c.im (DecVal.fin 0)
  if deq c.re (DecVal.fin 0) && imIsZero then infinityC
  else
    let sum := dadd (dpowI c.re 2) (dpowI c.im 2)
    let result := acoshS E ⟨ddiv c.re sum, dneg (ddiv c.im sum)⟩
    if dlt c.re (DecVal.fin 0) && imIsZero then ⟨result.re, dforcePos result.im⟩
    else result

/-- `Complex.acoth` (part_001:337). -/
def acothS (E : Engine) (c : SComplex) : SComplex :=
  if deq c.re (DecVal.fin 0) && deq c.im (DecVal.fin 0) then
    ⟨DecVal.fin 0, mjsPiOverTwo E⟩
  else
    let sum := dadd (dpowI c.re 2) (dpowI c.im 2)
    atanhS E ⟨ddiv c.re sum, dneg (ddiv c.im sum)⟩

end Mjs

/-! ## Concrete engines used to evaluate theorems on concrete inputs -/

/-- A degenerate engine whose transcendental primitives all return `NaN`
and whose formatter returns the empty string.  Code paths that never
consult the engine compute identically under it. -/
def trivEngine : Engine where
  sqrt _ := DecVal.nan
  ln _ := DecVal.nan
  exp1 := DecVal.nan
  powR _ _ := DecVal.nan
  sin _ := DecVal.nan
  cos _ := DecVal.nan
  sinh _ := DecVal.nan
  cosh _ := DecVal.nan
  asin _ := DecVal.nan
  acos _ := DecVal.nan
  atan2 _ _ := DecVal.nan
  hypot _ _ := DecVal.nan
  toStr _ := ""

/-- Decimal string rendering of an engine value, faithful to
`Decimal.prototype.toString` on integers, `NaN` and the infinities (the
only points at which theorems below evaluate it); a non-integer rational
is rendered as a fraction, which only marks the junk zone of the model. -/
def decToStrSimple : DecVal → String
  | DecVal.fin q => if q.den = 1 then toString q.num else toString q.num ++ "/" ++ toString q.den
  | DecVal.posInf => "Infinity"
  | DecVal.negInf => "-Infinity"
  | DecVal.nan => "NaN"

/-- The degenerate engine equipped with the faithful integer formatter. -/
def printEngine : Engine := { trivEngine with toStr := decToStrSimple }

/-! ## Helper lemmas -/

namespace DecVal

theorem deq_self_iff (x : DecVal) : deq x x = true ↔ x ≠ nan := by
  cases x <;> simp [deq]

theorem dmul_fin_zero (x : DecVal) :
    dmul x (fin 0) = if x = nan ∨ x = posInf ∨ x = negInf then nan else fin 0 := by
  cases x with
  | fin q => simp [dmul, mul_zero]
  | posInf => simp [dmul]
  | negInf => simp [dmul]
  | nan => simp [dmul]

end DecVal

namespace DecVal

end DecVal

/-! ## Claim C10 — equality is not reflexive in the presence of NaN -/

/-- C10: for every Complex `z`, `eq(z, z)` (and `equals(z, z)`) returns
`true` if and only if neither component of `z` is `NaN`; in particular
the componentwise-`NaN` constant `Complex.nan` is not equal to itself. -/
theorem C10_eq_reflexive_iff_no_nan :
    (∀ z : SComplex, Cjs.eq z z = true ↔ (z.re ≠ DecVal.nan ∧ z.im ≠ DecVal.nan)) ∧
    (∀ z : SComplex, Mjs.equals z z = true ↔ (z.re ≠ DecVal.nan ∧ z.im ≠ DecVal.nan)) ∧
    Cjs.eq Mjs.nanC Mjs.nanC = false ∧ Mjs.equals Mjs.nanC Mjs.nanC = false := by
  refine ⟨?_, ?_, by decide, by decide⟩ <;>
    · intro z
      simp [Cjs.eq, Mjs.equals, Bool.and_eq_true, deq_self_iff]

/-! ## Claim C8 — division by the zero complex number is a pass-through -/

/-- C6 counterexample: for `a = b = (Infinity, 0)`,
`sub(add(a, b), b)` has real part `NaN` (`Infinity - Infinity`), which is
not equal (either structurally or via `eq`) to `a`'s real part. -/
theorem C6_counterexample :
    Cjs.sub (Cjs.add ⟨DecVal.posInf, DecVal.fin 0⟩ ⟨DecVal.posInf, DecVal.fin 0⟩)
        ⟨DecVal.posInf, DecVal.fin 0⟩ = ⟨DecVal.nan, DecVal.fin 0⟩ ∧
    (⟨DecVal.nan, DecVal.fin 0⟩ : SComplex) ≠ ⟨DecVal.posInf, DecVal.fin 0⟩ ∧
    Cjs.eq (Cjs.sub (Cjs.add ⟨DecVal.posInf, DecVal.fin 0⟩ ⟨DecVal.posInf, DecVal.fin 0⟩)
        ⟨DecVal.posInf, DecVal.fin 0⟩) ⟨DecVal.posInf, DecVal.fin 0⟩ = false := by
  refine ⟨?_, by simp, ?_⟩ <;>
    norm_num [Cjs.add, Cjs.sub, Cjs.eq, dadd, dsub, dneg, deq, SComplex.mk.injEq]

/-- C6 amended: for all Complex values `a` and `b` whose four components
are all finite, `sub(add(a, b), b)` equals `a` exactly, componentwise (in
the idealised engine, whose finite arithmetic is exact). -/
theorem C6_amended (a1 a2 b1 b2 : ℚ) :
    Cjs.sub (Cjs.add ⟨DecVal.fin a1, DecVal.fin a2⟩ ⟨DecVal.fin b1, DecVal.fin b2⟩)
        ⟨DecVal.fin b1, DecVal.fin b2⟩ = ⟨DecVal.fin a1, DecVal.fin a2⟩ := by
  simp [Cjs.add, Cjs.sub, dadd, dsub, dneg]


/-! ## The integer-power-of-`i` fast path of `pow` (claims C1, C2) -/

namespace DecVal

theorem ratTrunc_intCast (k : ℤ) : ratTrunc (k : ℚ) = k := by
  unfold ratTrunc
  rw [Rat.num_intCast, Rat.den_intCast]
  simpa using Int.sign_mul_abs k

/-- The engine's truncated remainder of two integers is zero exactly when
the divisor divides the dividend. -/
theorem dmod_int_eq_zero_iff (n m : ℤ) (hm : m ≠ 0) :
    deq (dmod (fin (n : ℚ)) (fin (m : ℚ))) (fin 0) = true ↔ m ∣ n := by
  have hmQ : (m : ℚ) ≠ 0 := Int.cast_ne_zero.mpr hm
  rw [dmod, if_neg hmQ]
  simp only [deq, decide_eq_true_eq, sub_eq_zero]
  constructor
  · intro h
    refine ⟨ratTrunc ((n : ℚ) / (m : ℚ)), ?_⟩
    exact_mod_cast h
  · rintro ⟨k, rfl⟩
    have : ((m * k : ℤ) : ℚ) / (m : ℚ) = (k : ℚ) := by
      push_cast
      exact mul_div_cancel_left₀ _ hmQ
    rw [this, ratTrunc_intCast]
    push_cast
    ring

theorem dmul_negOne (x : DecVal) : dmul (fin (-1)) x = dneg x := by
  cases x <;> norm_num [dmul, dneg, neg_one_mul]

theorem dpowI_one (n : ℤ) : dpowI (fin 1) n = fin 1 := by
  rcases eq_or_ne n 0 with rfl | hn
  · simp [dpowI]
  · simp [dpowI, hn, one_zpow]

end DecVal

/-- The fast path of `Complex.prototype.pow` (src/complex.js:100-112),
fully evaluated: for a base with zero real part and a purely real integer
exponent `n`, the result is selected by the Euclidean residue `n % 4`
from the table computed by the chain of truncated-remainder tests, with
`magnitude = dpowI base.im n`. -/
theorem Cjs.pow_fastpath (E : Engine) (b : ℚ) (n : ℤ) :
    Cjs.pow E ⟨DecVal.fin 0, DecVal.fin b⟩ ⟨DecVal.fin (n : ℚ), DecVal.fin 0⟩ =
      (if n % 4 = 0 then ⟨dpowI (DecVal.fin b) n, DecVal.fin 0⟩
       else if n % 4 = 1 then ⟨DecVal.fin 0, dpowI (DecVal.fin b) n⟩
       else if n % 4 = 2 then ⟨dneg (dpowI (DecVal.fin b) n), DecVal.fin 0⟩
       else ⟨DecVal.fin 0, dneg (dpowI (DecVal.fin b) n)⟩) := by
  have hden : ((n : ℚ)).den = 1 := Rat.den_intCast n
  have hnum : ((n : ℚ)).num = n := Rat.num_intCast n
  have hp : dpow E (DecVal.fin b) (DecVal.fin (n : ℚ)) = dpowI (DecVal.fin b) n := by
    simp [dpow, hden, hnum]
  have htop : (deq (DecVal.fin 0) (DecVal.fin 0) && deq (DecVal.fin 0) (DecVal.fin 0)
      && disInt (DecVal.fin (n : ℚ))) = true := by
    simp [deq, disInt, hden]
  have ha1 : dadd (DecVal.fin (n : ℚ)) (DecVal.fin 1) = DecVal.fin ((n + 1 : ℤ) : ℚ) := by
    simp [dadd]
  have ha3 : dadd (DecVal.fin (n : ℚ)) (DecVal.fin 3) = DecVal.fin ((n + 3 : ℤ) : ℚ) := by
    simp [dadd]
  have hc0 : deq (dmod (DecVal.fin (n : ℚ)) (DecVal.fin 4)) (DecVal.fin 0) = true ↔ (4:ℤ) ∣ n := by
    have h := dmod_int_eq_zero_iff n 4 (by norm_num)
    norm_num at h
    exact h
  have hc1 : deq (dmod (dadd (DecVal.fin (n : ℚ)) (DecVal.fin 1)) (DecVal.fin 4)) (DecVal.fin 0)
      = true ↔ (4:ℤ) ∣ (n + 1) := by
    have h := dmod_int_eq_zero_iff (n + 1) 4 (by norm_num)
    norm_num at h
    rw [ha1]
    push_cast
    exact h
  have hc2 : deq (dmod (DecVal.fin (n : ℚ)) (DecVal.fin 2)) (DecVal.fin 0) = true ↔ (2:ℤ) ∣ n := by
    have h := dmod_int_eq_zero_iff n 2 (by norm_num)
    norm_num at h
    exact h
  have hc3 : deq (dmod (dadd (DecVal.fin (n : ℚ)) (DecVal.fin 3)) (DecVal.fin 4)) (DecVal.fin 0)
      = true ↔ (4:ℤ) ∣ (n + 3) := by
    have h := dmod_int_eq_zero_iff (n + 3) 4 (by norm_num)
    norm_num at h
    rw [ha3]
    push_cast
    exact h
  have hmod : n % 4 = 0 ∨ n % 4 = 1 ∨ n % 4 = 2 ∨ n % 4 = 3 := by omega
  rcases hmod with h | h | h | h
  · have e0 : deq (dmod (DecVal.fin (n : ℚ)) (DecVal.fin 4)) (DecVal.fin 0) = true :=
      hc0.mpr (by omega)
    simp only [Cjs.pow]
    rw [htop, e0]
    simp [hp, h]
  · have e0 : deq (dmod (DecVal.fin (n : ℚ)) (DecVal.fin 4)) (DecVal.fin 0) = false := by
      rw [Bool.eq_false_iff]
      intro hx
      have := hc0.mp hx
      omega
    have e1 : deq (dmod (dadd (DecVal.fin (n : ℚ)) (DecVal.fin 1)) (DecVal.fin 4))
        (DecVal.fin 0) = false := by
      rw [Bool.eq_false_iff]
      intro hx
      have := hc1.mp hx
      omega
    have e2 : deq (dmod (DecVal.fin (n : ℚ)) (DecVal.fin 2)) (DecVal.fin 0) = false := by
      rw [Bool.eq_false_iff]
      intro hx
      have := hc2.mp hx
      omega
    have e3 : deq (dmod (dadd (DecVal.fin (n : ℚ)) (DecVal.fin 3)) (DecVal.fin 4))
        (DecVal.fin 0) = true := hc3.mpr (by omega)
    simp only [Cjs.pow]
    rw [htop, e0, e1, e2, e3]
    simp [hp, h]
  · have e0 : deq (dmod (DecVal.fin (n : ℚ)) (DecVal.fin 4)) (DecVal.fin 0) = false := by
      rw [Bool.eq_false_iff]
      intro hx
      have := hc0.mp hx
      omega
    have e1 : deq (dmod (dadd (DecVal.fin (n : ℚ)) (DecVal.fin 1)) (DecVal.fin 4))
        (DecVal.fin 0) = false := by
      rw [Bool.eq_false_iff]
      intro hx
      have := hc1.mp hx
      omega
    have e2 : deq (dmod (DecVal.fin (n : ℚ)) (DecVal.fin 2)) (DecVal.fin 0) = true :=
      hc2.mpr (by omega)
    simp only [Cjs.pow]
    rw [htop, e0, e1, e2]
    simp [hp, dmul_negOne, h]
  · have e0 : deq (dmod (DecVal.fin (n : ℚ)) (DecVal.fin 4)) (DecVal.fin 0) = false := by
      rw [Bool.eq_false_iff]
      intro hx
      have := hc0.mp hx
      omega
    have e1 : deq (dmod (dadd (DecVal.fin (n : ℚ)) (DecVal.fin 1)) (DecVal.fin 4))
        (DecVal.fin 0) = true := hc1.mpr (by omega)
    simp only [Cjs.pow]
    rw [htop, e0, e1]
    simp [hp, dmul_negOne, h]

/-- Modelled from the spec's words (C2): the 4-cycle
`(1,0), (0,1), (-1,0), (0,-1)` of powers of `i`, indexed by residue. -/
def specFourCycle (r : ℤ) : SComplex :=
  if r = 0 then ⟨DecVal.fin 1, DecVal.fin 0⟩
  else if r = 1 then ⟨DecVal.fin 0, DecVal.fin 1⟩
  else if r = 2 then ⟨DecVal.fin (-1), DecVal.fin 0⟩
  else ⟨DecVal.fin 0, DecVal.fin (-1)⟩

/-! ## Claim C1 — the fast-path branch table of `pow` -/

/-- C1 counterexample: at `base = i = (0,1)` and `exponent = (1,0)` the
exponent residue is 1 and `magnitude = 1^1 = 1`, but `pow` returns
`(0, magnitude) = (0, 1)`, not `(0, -magnitude) = (0, -1)` as the claim's
residue-1 row states. -/
theorem C1_counterexample :
    (1 : ℤ) % 4 = 1 ∧
    Cjs.pow trivEngine ⟨DecVal.fin 0, DecVal.fin 1⟩ ⟨DecVal.fin 1, DecVal.fin 0⟩
      = ⟨DecVal.fin 0, DecVal.fin 1⟩ ∧
    Cjs.pow trivEngine ⟨DecVal.fin 0, DecVal.fin 1⟩ ⟨DecVal.fin 1, DecVal.fin 0⟩
      ≠ ⟨DecVal.fin 0, DecVal.fin (-1)⟩ := by
  have h := Cjs.pow_fastpath trivEngine 1 1
  norm_num [dpowI] at h
  refine ⟨by norm_num, ?_, ?_⟩
  · exact_mod_cast h
  · rw [show Cjs.pow trivEngine ⟨DecVal.fin 0, DecVal.fin 1⟩ ⟨DecVal.fin 1, DecVal.fin 0⟩
        = ⟨DecVal.fin 0, DecVal.fin 1⟩ from by exact_mod_cast h]
    norm_num [SComplex.mk.injEq]

/-- C1 amended: for `pow(base, exponent)` with `base.re = 0`,
`exponent.im = 0` and `exponent.re` an integer `n`, the fast path
computes `magnitude = base.im ^ n` and selects by the residue `n mod 4`:
residue 0 → `(magnitude, 0)`; residue 1 → `(0, magnitude)`;
residue 2 → `(-magnitude, 0)`; residue 3 → `(0, -magnitude)`
(the claim's residue-1 and residue-3 rows are swapped). -/
theorem C1_amended (E : Engine) (b : ℚ) (n : ℤ) :
    Cjs.pow E ⟨DecVal.fin 0, DecVal.fin b⟩ ⟨DecVal.fin (n : ℚ), DecVal.fin 0⟩ =
      (if n % 4 = 0 then ⟨dpowI (DecVal.fin b) n, DecVal.fin 0⟩
       else if n % 4 = 1 then ⟨DecVal.fin 0, dpowI (DecVal.fin b) n⟩
       else if n % 4 = 2 then ⟨dneg (dpowI (DecVal.fin b) n), DecVal.fin 0⟩
       else ⟨DecVal.fin 0, dneg (dpowI (DecVal.fin b) n)⟩) :=
  Cjs.pow_fastpath E b n

/-! ## Claim C2 — `pow(i, n)` follows the 4-cycle exactly -/

/-- C2: for every integer `n`, `pow(i, n)` returns exactly the value of
the 4-cycle `(1,0), (0,1), (-1,0), (0,-1)` at position `n mod 4`; in
particular `pow(i,0) = (1,0)`, `pow(i,1) = (0,1)`, `pow(i,5) = (0,1)`. -/
theorem C2_pow_i_four_cycle :
    (∀ (E : Engine) (n : ℤ),
      Cjs.pow E ⟨DecVal.fin 0, DecVal.fin 1⟩ ⟨DecVal.fin (n : ℚ), DecVal.fin 0⟩
        = specFourCycle (n % 4)) ∧
    Cjs.pow trivEngine ⟨DecVal.fin 0, DecVal.fin 1⟩ ⟨DecVal.fin 0, DecVal.fin 0⟩
      = ⟨DecVal.fin 1, DecVal.fin 0⟩ ∧
    Cjs.pow trivEngine ⟨DecVal.fin 0, DecVal.fin 1⟩ ⟨DecVal.fin 1, DecVal.fin 0⟩
      = ⟨DecVal.fin 0, DecVal.fin 1⟩ ∧
    Cjs.pow trivEngine ⟨DecVal.fin 0, DecVal.fin 1⟩ ⟨DecVal.fin 5, DecVal.fin 0⟩
      = ⟨DecVal.fin 0, DecVal.fin 1⟩ := by
  have hgen : ∀ (E : Engine) (n : ℤ),
      Cjs.pow E ⟨DecVal.fin 0, DecVal.fin 1⟩ ⟨DecVal.fin (n : ℚ), DecVal.fin 0⟩
        = specFourCycle (n % 4) := by
    intro E n
    rw [Cjs.pow_fastpath E 1 n, dpowI_one, specFourCycle]
    have hmod : n % 4 = 0 ∨ n % 4 = 1 ∨ n % 4 = 2 ∨ n % 4 = 3 := by omega
    rcases hmod with h | h | h | h <;> norm_num [h, dneg]
  refine ⟨hgen, ?_, ?_, ?_⟩
  · have h := hgen trivEngine 0
    norm_num at h
    exact h
  · have h := hgen trivEngine 1
    norm_num [specFourCycle] at h
    exact_mod_cast h
  · have h := hgen trivEngine 5
    norm_num [specFourCycle] at h
    exact_mod_cast h

/-! ## Claim C3 — `toString` rendering -/

/-- Modelled from the spec's words as amended by `C3_counterexample`:
purely real values render as the real component alone; a zero real part
renders as `"<im>i"` (with the numeral even for coefficient `±1`);
otherwise `"<re> + <im>i"` or `"<re> - |<im>|i"`. -/
def specToString (E : Engine) (z : SComplex) : String :=
  if deq z.im (DecVal.fin 0) then E.toStr z.re
  else if deq z.re (DecVal.fin 0) then E.toStr z.im ++ "i"
  else
    (E.toStr z.re ++
      (if dlt z.im (DecVal.fin 0) then " - " ++ E.toStr (dabs z.im)
       else " + " ++ E.toStr z.im)) ++ "i"

/-- C3 counterexample: `toString` of `(0, 1)` in src/complex.js is
`"1i"` — the imaginary coefficient `1` is rendered with its numeral, not
as the claimed `"i"`. -/
theorem C3_counterexample :
    Cjs.toString printEngine ⟨DecVal.fin 0, DecVal.fin 1⟩ = "1i" ∧
    Cjs.toString printEngine ⟨DecVal.fin 0, DecVal.fin 1⟩ ≠ "i" := by
  refine ⟨rfl, ?_⟩
  show ("1i" : String) ≠ "i"
  decide

/-- C3 amended: `toString()` renders a purely real `z` as the real
component alone; otherwise it renders `"<im>i"`, `"<re> + <im>i"`, or
`"<re> - |<im>|i"`, with the imaginary coefficient always carrying its
numeral (so `1` and `-1` render as `"1i"` / `"-1i"`); in particular
`toString` of `(0,0)` is `"0"`, of `(3,-4)` is `"3 - 4i"`, and of
`(0,1)` is `"1i"`. -/
theorem C3_amended :
    (∀ (E : Engine) (z : SComplex), Cjs.toString E z = specToString E z) ∧
    Cjs.toString printEngine ⟨DecVal.fin 0, DecVal.fin 0⟩ = "0" ∧
    Cjs.toString printEngine ⟨DecVal.fin 3, DecVal.fin (-4)⟩ = "3 - 4i" ∧
    Cjs.toString printEngine ⟨DecVal.fin 0, DecVal.fin 1⟩ = "1i" := by
  refine ⟨fun E z => rfl, rfl, ?_, rfl⟩
  rfl

/-! ## Claim C4 — static/instance duality of the two implementations -/

/-- Modelled from the spec's words (C9): on the real axis, a nonnegative
real part gives `(sqrt(re), 0)` and a negative real part gives
`(0, sqrt(|re|))`; otherwise `sqrt` delegates to `pow(z, 0.5)`. -/
def specSqrt (E : Engine) (z : SComplex) : SComplex :=
  if deq z.im (DecVal.fin 0) then
    if dge z.re (DecVal.fin 0) then ⟨E.sqrt z.re, DecVal.fin 0⟩
    else ⟨DecVal.fin 0, E.sqrt (dabs z.re)⟩
  else Cjs.pow E z ⟨DecVal.fin (1/2 : ℚ), DecVal.fin 0⟩

/-- C9: `sqrt(z)` for `z.im = 0` returns `(sqrt(z.re), 0)` when
`z.re ≥ 0` and `(0, sqrt(|z.re|))` when `z.re < 0`, and delegates to
`pow(z, 0.5)` otherwise; in particular (for an engine whose real square
root is exact on the perfect squares `1` and `4`, as decimal.js's is)
`sqrt(-1)` exactly equals `(0, 1)` and `sqrt(4)` exactly equals
`(2, 0)`. -/
theorem C9_sqrt (E : Engine)
    (h1 : E.sqrt (DecVal.fin 1) = DecVal.fin 1)
    (h4 : E.sqrt (DecVal.fin 4) = DecVal.fin 2) :
    (∀ z : SComplex, Cjs.sqrt E z = specSqrt E z) ∧
    Cjs.sqrt E ⟨DecVal.fin (-1), DecVal.fin 0⟩ = ⟨DecVal.fin 0, DecVal.fin 1⟩ ∧
    Cjs.sqrt E ⟨DecVal.fin 4, DecVal.fin 0⟩ = ⟨DecVal.fin 2, DecVal.fin 0⟩ := by
  refine ⟨fun z => rfl, ?_, ?_⟩
  · have habs : dabs (DecVal.fin (-1)) = DecVal.fin 1 := by
      norm_num [dabs]
    norm_num [Cjs.sqrt, deq, dge, dle, habs, h1]
  · norm_num [Cjs.sqrt, deq, dge, dle, h4]

/-- An engine computing the exact square roots of the perfect squares
`1` and `4` (and nothing else), used to evaluate `C9_sqrt`. -/
def sqrtTestEngine : Engine :=
  { trivEngine with
    sqrt := fun d =>
      if d = DecVal.fin 4 then DecVal.fin 2
      else if d = DecVal.fin 1 then DecVal.fin 1
      else DecVal.nan }

theorem C9_sqrt_witness :
    Cjs.sqrt sqrtTestEngine ⟨DecVal.fin (-1), DecVal.fin 0⟩ = ⟨DecVal.fin 0, DecVal.fin 1⟩ ∧
    Cjs.sqrt sqrtTestEngine ⟨DecVal.fin 4, DecVal.fin 0⟩ = ⟨DecVal.fin 2, DecVal.fin 0⟩ :=
  (C9_sqrt sqrtTestEngine (by norm_num [sqrtTestEngine]) (by norm_num [sqrtTestEngine])).2

/-! ## Claim C5 — special values of `acsch` / `asech` / `acoth` -/

theorem DecVal.dlt_dforcePos_zero (x : DecVal) : dlt (dforcePos x) (fin 0) = false := by
  cases x with
  | fin q => simp [dforcePos, dlt, abs_nonneg, not_lt.mpr (abs_nonneg q)]
  | posInf => rfl
  | negInf => rfl
  | nan => rfl

/-- C5 (evaluating the code at and near the origin): `asech(0)` returns
the componentwise-`Infinity` constant and `acoth(0)` returns
`(0, PI_OVER_TWO)`, and for a negative purely real input the imaginary
part of `asech` has its sign forced to `+1` (in particular it is never
negative); but `acsch(0)` does *not* produce `(Infinity, 0)`: its
zero-input branch reads the nonexistent instance property `c.INFINITY`
(JavaScript `undefined`), so the construction of the result fails
(modelled as `none`) instead of yielding the engine `Infinity`. -/
theorem C5_inverse_reciprocal_special_values :
    (∀ E : Engine, Mjs.acschS E ⟨DecVal.fin 0, DecVal.fin 0⟩ = none) ∧
    (∀ E : Engine, Mjs.asechS E ⟨DecVal.fin 0, DecVal.fin 0⟩ = Mjs.infinityC) ∧
    (∀ E : Engine, Mjs.acothS E ⟨DecVal.fin 0, DecVal.fin 0⟩
      = ⟨DecVal.fin 0, mjsPiOverTwo E⟩) ∧
    (∀ (E : Engine) (rq : ℚ), rq < 0 →
      (Mjs.asechS E ⟨DecVal.fin rq, DecVal.fin 0⟩).im
        = dforcePos ((Mjs.acoshS E
            ⟨ddiv (DecVal.fin rq) (dadd (dpowI (DecVal.fin rq) 2) (dpowI (DecVal.fin 0) 2)),
             dneg (ddiv (DecVal.fin 0)
               (dadd (dpowI (DecVal.fin rq) 2) (dpowI (DecVal.fin 0) 2)))⟩).im) ∧
      dlt ((Mjs.asechS E ⟨DecVal.fin rq, DecVal.fin 0⟩).im) (DecVal.fin 0) = false) := by
  refine ⟨fun E => by simp [Mjs.acschS, deq], fun E => by simp [Mjs.asechS, deq],
    fun E => by simp [Mjs.acothS, deq], ?_⟩
  intro E rq h
  have hne : deq (DecVal.fin rq) (DecVal.fin 0) = false := by
    simp [deq]
    exact ne_of_lt h
  have hlt : dlt (DecVal.fin rq) (DecVal.fin 0) = true := by
    simp [dlt, h]
  have hz : deq (DecVal.fin 0) (DecVal.fin 0) = true := by
    simp [deq]
  constructor
  · simp [Mjs.asechS, hne, hz, hlt]
  · simp [Mjs.asechS, hne, hz, hlt, dlt_dforcePos_zero]

theorem C5_witness :
    Mjs.acschS trivEngine ⟨DecVal.fin 0, DecVal.fin 0⟩ = none ∧
    ((-1 : ℚ) < 0 ∧
      dlt ((Mjs.asechS trivEngine ⟨DecVal.fin (-1), DecVal.fin 0⟩).im) (DecVal.fin 0)
        = false) :=
  ⟨C5_inverse_reciprocal_special_values.1 trivEngine,
   by norm_num,
   (C5_inverse_reciprocal_special_values.2.2.2 trivEngine (-1) (by norm_num)).2⟩

/-! ## Claim C7 — `asin`: formula, branch-sign correction, `asin(2)`

Numeric groundwork: rigorous rational bounds for `√3`, `π/2` and
`log` on the interval `[3.7320507, 3.7320511]` that contains
`2 + √3` (up to the engine's sqrt accuracy). -/

theorem sqrt_three_lb : (1.7320508 : ℝ) ≤ Real.sqrt 3 := by
  rw [Real.le_sqrt' (by norm_num)]
  norm_num

theorem sqrt_three_ub : Real.sqrt 3 ≤ (1.7320509 : ℝ) :=
  le_of_lt ((Real.sqrt_lt' (by norm_num)).mpr (by norm_num))

theorem log_37320507_lb : (1.31695786 : ℝ) ≤ Real.log 3.7320507 := by
  have hx : |(0.066987325 : ℝ)| < 1 := by
    rw [abs_of_pos (by norm_num)]
    norm_num
  have hs := (abs_le.mp (Real.abs_log_sub_add_sum_range_le hx 7)).1
  rw [abs_of_pos (show (0 : ℝ) < 0.066987325 by norm_num)] at hs
  simp only [Finset.sum_range_succ, Finset.sum_range_zero] at hs
  norm_num at hs
  have h2 := Real.log_two_gt_d9
  have hlog : Real.log 3.7320507 = 2 * Real.log 2 + Real.log ((37320507 : ℝ) / 40000000) := by
    rw [show (3.7320507 : ℝ) = 2 ^ 2 * ((37320507 : ℝ) / 40000000) by norm_num,
      Real.log_mul (by norm_num) (by norm_num), Real.log_pow]
    norm_num
  rw [hlog]
  linarith

theorem log_37320511_ub : Real.log 3.7320511 ≤ (1.31695798 : ℝ) := by
  have hx : |(0.066987225 : ℝ)| < 1 := by
    rw [abs_of_pos (by norm_num)]
    norm_num
  have hs := (abs_le.mp (Real.abs_log_sub_add_sum_range_le hx 7)).2
  rw [abs_of_pos (show (0 : ℝ) < 0.066987225 by norm_num)] at hs
  simp only [Finset.sum_range_succ, Finset.sum_range_zero] at hs
  norm_num at hs
  have h2 := Real.log_two_lt_d9
  have hlog : Real.log 3.7320511 = 2 * Real.log 2 + Real.log ((37320511 : ℝ) / 40000000) := by
    rw [show (3.7320511 : ℝ) = 2 ^ 2 * ((37320511 : ℝ) / 40000000) by norm_num,
      Real.log_mul (by norm_num) (by norm_num), Real.log_pow]
    norm_num
  rw [hlog]
  linarith

/-- Modelled from the spec's words (C7): `asin(z)` computes
`a = (sqrt((1+re)² + im²) - sqrt((1-re)² + im²))/2` and the corresponding
half-sum `b`, returns `(asin(a), ln(b + sqrt(b² - 1)))`, and applies the
branch-sign correction to the imaginary component exactly when
`im < 0` or (`re > 0` and `im ≤ 0`). -/
def specAsin (E : Engine) (z : SComplex) : SComplex :=
  let p := dpowI (dadd (DecVal.fin 1) z.re) 2
  let q := dpowI (dsub (DecVal.fin 1) z.re) 2
  let imSq := dpowI z.im 2
  let sp := E.sqrt (dadd p imSq)
  let sq := E.sqrt (dadd q imSq)
  let av := ddiv (dsub sp sq) (DecVal.fin 2)
  let bv := ddiv (dadd sp sq) (DecVal.fin 2)
  let result : SComplex :=
    ⟨E.asin av, E.ln (dadd bv (E.sqrt (dsub (dpowI bv 2) (DecVal.fin 1))))⟩
  if dlt z.im (DecVal.fin 0) || (dgt z.re (DecVal.fin 0) && dle z.im (DecVal.fin 0)) then
    ⟨result.re, dforceNeg result.im⟩
  else result

/-- Evaluation of `asin` at the real input `2` (the engine square roots
of the perfect squares `9` and `1` being exact): the formula reduces to
`a = 1`, `b = 2`, and the branch condition holds, so the imaginary
component `ln(2 + sqrt 3)` has its sign forced negative. -/
theorem Cjs.asin_two (E : Engine)
    (h9 : E.sqrt (DecVal.fin 9) = DecVal.fin 3)
    (h1 : E.sqrt (DecVal.fin 1) = DecVal.fin 1) :
    Cjs.asin E ⟨DecVal.fin 2, DecVal.fin 0⟩
      = ⟨E.asin (DecVal.fin 1),
         dforceNeg (E.ln (dadd (DecVal.fin 2) (E.sqrt (DecVal.fin 3))))⟩ := by
  have e9 : dadd (dpowI (dadd (DecVal.fin 1) (DecVal.fin 2)) 2) (dpowI (DecVal.fin 0) 2)
      = DecVal.fin 9 := by
    norm_num [dadd, dpowI]
  have e1 : dadd (dpowI (dsub (DecVal.fin 1) (DecVal.fin 2)) 2) (dpowI (DecVal.fin 0) 2)
      = DecVal.fin 1 := by
    norm_num [dadd, dsub, dneg, dpowI]
  rw [Cjs.asin]
  simp only [e9, e1, h9, h1]
  have hav : ddiv (dsub (DecVal.fin 3) (DecVal.fin 1)) (DecVal.fin 2) = DecVal.fin 1 := by
    norm_num [ddiv, dsub, dadd, dneg]
  have hbv : ddiv (dadd (DecVal.fin 3) (DecVal.fin 1)) (DecVal.fin 2) = DecVal.fin 2 := by
    norm_num [ddiv, dadd]
  have hb3 : dsub (dpowI (DecVal.fin 2) 2) (DecVal.fin 1) = DecVal.fin 3 := by
    norm_num [dsub, dadd, dneg, dpowI]
  have hcond : (dlt (DecVal.fin 0) (DecVal.fin 0)
      || (dgt (DecVal.fin 2) (DecVal.fin 0) && dle (DecVal.fin 0) (DecVal.fin 0))) = true := by
    norm_num [dlt, dle, dgt]
  simp only [hav, hbv, hb3, hcond, if_true]

/-- C7: `asin(z)` computes the mathonweb decomposition and negates the
imaginary result component exactly when `z.im < 0` or
(`z.re > 0` and `z.im ≤ 0`) — the sign-forcing coincides with negation on
the nonnegative values the formula produces — and, for an engine whose
`sqrt`, `ln` and `asin` primitives are accurate at the points this input
reaches (decimal.js computes them to the configured precision, far inside
the stated tolerances), `asin(2)` approx-equals
`(1.5707963267948966192, -1.3169578969248167086)`. -/
theorem rat_le_of_cast_le {a b : ℚ} (h : (a : ℝ) ≤ (b : ℝ)) : a ≤ b := by
  exact_mod_cast h

theorem C7_asin (E : Engine)
    (h9 : E.sqrt (DecVal.fin 9) = DecVal.fin 3)
    (h1 : E.sqrt (DecVal.fin 1) = DecVal.fin 1)
    (hs : ∃ s : ℚ, E.sqrt (DecVal.fin 3) = DecVal.fin s
      ∧ |(s : ℝ) - Real.sqrt 3| ≤ 1 / 10 ^ 7)
    (hln : ∀ q : ℚ, (3.7320507 : ℚ) ≤ q → q ≤ (3.7320511 : ℚ) →
      ∃ r : ℚ, E.ln (DecVal.fin q) = DecVal.fin r
        ∧ |(r : ℝ) - Real.log ((q : ℝ))| ≤ 1 / 10 ^ 7)
    (ha : ∃ r : ℚ, E.asin (DecVal.fin 1) = DecVal.fin r
      ∧ |(r : ℝ) - Real.arcsin 1| ≤ 4 / 10 ^ 7) :
    (∀ z : SComplex, Cjs.asin E z = specAsin E z) ∧
    (∀ d : DecVal, dle (DecVal.fin 0) d = true → dforceNeg d = dneg d) ∧
    Mjs.approxEquals (Cjs.asin E ⟨DecVal.fin 2, DecVal.fin 0⟩)
      ⟨DecVal.fin (1.5707963267948966192 : ℚ),
       DecVal.fin (-(1.3169578969248167086 : ℚ))⟩ = true := by
  refine ⟨fun z => rfl, ?_, ?_⟩
  · intro d hd
    cases d with
    | fin q =>
        simp only [dle, decide_eq_true_eq] at hd
        simp [dforceNeg, dneg, abs_of_nonneg hd]
    | posInf => rfl
    | negInf => simp [dle] at hd
    | nan => simp [dle] at hd
  · obtain ⟨s, hsE, hsb⟩ := hs
    obtain ⟨hsb1, hsb2⟩ := abs_le.mp hsb
    have hs3l := sqrt_three_lb
    have hs3u := sqrt_three_ub
    have s_lbR : (1.7320507 : ℝ) ≤ (s : ℝ) := by linarith
    have s_ubR : (s : ℝ) ≤ (1.7320510 : ℝ) := by linarith
    have s_lb : (1.7320507 : ℚ) ≤ s := rat_le_of_cast_le (by push_cast; linarith)
    have s_ub : s ≤ (1.7320510 : ℚ) := rat_le_of_cast_le (by push_cast; linarith)
    obtain ⟨r2, hr2E, hr2b⟩ := hln (2 + s) (by linarith) (by linarith)
    obtain ⟨hr2b1, hr2b2⟩ := abs_le.mp hr2b
    have hq_lo : (3.7320507 : ℝ) ≤ (((2 + s : ℚ)) : ℝ) := by
      push_cast
      linarith
    have hq_hi : (((2 + s : ℚ)) : ℝ) ≤ (3.7320511 : ℝ) := by
      push_cast
      linarith
    have hlog_lo : (1.31695786 : ℝ) ≤ Real.log (((2 + s : ℚ) : ℝ)) :=
      le_trans log_37320507_lb (Real.log_le_log (by norm_num) hq_lo)
    have hlog_hi : Real.log (((2 + s : ℚ) : ℝ)) ≤ (1.31695798 : ℝ) :=
      le_trans (Real.log_le_log (by linarith) hq_hi) log_37320511_ub
    have r2_lb : (1.31695776 : ℚ) ≤ r2 := rat_le_of_cast_le (by push_cast; linarith)
    have r2_ub : r2 ≤ (1.31695808 : ℚ) := rat_le_of_cast_le (by push_cast; linarith)
    obtain ⟨r1, hr1E, hr1b⟩ := ha
    rw [Real.arcsin_one] at hr1b
    obtain ⟨hr1b1, hr1b2⟩ := abs_le.mp hr1b
    have hpi1 := Real.pi_gt_d20
    have hpi2 := Real.pi_lt_d20
    have r1_lb : (1.5707959 : ℚ) ≤ r1 := rat_le_of_cast_le (by push_cast; linarith)
    have r1_ub : r1 ≤ (1.5707968 : ℚ) := rat_le_of_cast_le (by push_cast; linarith)
    have hmain := Cjs.asin_two E h9 h1
    rw [hsE] at hmain
    have hadd : dadd (DecVal.fin 2) (DecVal.fin s) = DecVal.fin (2 + s) := by
      norm_num [dadd]
    rw [hadd, hr2E, hr1E] at hmain
    rw [hmain]
    have habs : dforceNeg (DecVal.fin r2) = DecVal.fin (-r2) := by
      have h : |r2| = r2 := abs_of_nonneg (by linarith)
      simp [dforceNeg, h]
    rw [habs]
    simp only [Mjs.approxEquals, dsub, dadd, dneg, dabs, dlt, Bool.and_eq_true,
      decide_eq_true_eq]
    constructor
    · rw [abs_lt]
      constructor <;> linarith
    · rw [abs_lt]
      constructor <;> linarith

/-- A concrete engine that returns 8-to-10-digit values of the square
roots, logarithm and arcsine at the points reached by `asin(2)`, used to
evaluate `C7_asin`. -/
def asinTestEngine : Engine :=
  { trivEngine with
    sqrt := fun d =>
      if d = DecVal.fin 9 then DecVal.fin 3
      else if d = DecVal.fin 1 then DecVal.fin 1
      else if d = DecVal.fin 3 then DecVal.fin (1.7320508 : ℚ)
      else DecVal.nan
    ln := fun _ => DecVal.fin (1.31695792 : ℚ)
    asin := fun _ => DecVal.fin (1.5707963268 : ℚ) }

theorem C7_asin_witness :
    Mjs.approxEquals (Cjs.asin asinTestEngine ⟨DecVal.fin 2, DecVal.fin 0⟩)
      ⟨DecVal.fin (1.5707963267948966192 : ℚ),
       DecVal.fin (-(1.3169578969248167086 : ℚ))⟩ = true := by
  have h9 : asinTestEngine.sqrt (DecVal.fin 9) = DecVal.fin 3 := by
    norm_num [asinTestEngine]
  have h1 : asinTestEngine.sqrt (DecVal.fin 1) = DecVal.fin 1 := by
    norm_num [asinTestEngine]
  have hs : ∃ s : ℚ, asinTestEngine.sqrt (DecVal.fin 3) = DecVal.fin s
      ∧ |(s : ℝ) - Real.sqrt 3| ≤ 1 / 10 ^ 7 := by
    refine ⟨(1.7320508 : ℚ), by norm_num [asinTestEngine], ?_⟩
    have hl := sqrt_three_lb
    have hu := sqrt_three_ub
    rw [abs_le]
    constructor <;> · push_cast; linarith
  have hln : ∀ q : ℚ, (3.7320507 : ℚ) ≤ q → q ≤ (3.7320511 : ℚ) →
      ∃ r : ℚ, asinTestEngine.ln (DecVal.fin q) = DecVal.fin r
        ∧ |(r : ℝ) - Real.log ((q : ℝ))| ≤ 1 / 10 ^ 7 := by
    intro q hq1 hq2
    refine ⟨(1.31695792 : ℚ), rfl, ?_⟩
    have hq1R : (3.7320507 : ℝ) ≤ (q : ℝ) := by
      have h : ((3.7320507 : ℚ) : ℝ) ≤ (q : ℝ) := by exact_mod_cast hq1
      push_cast at h
      linarith
    have hq2R : (q : ℝ) ≤ (3.7320511 : ℝ) := by
      have h : (q : ℝ) ≤ ((3.7320511 : ℚ) : ℝ) := by exact_mod_cast hq2
      push_cast at h
      linarith
    have hlo : (1.31695786 : ℝ) ≤ Real.log ((q : ℝ)) :=
      le_trans log_37320507_lb (Real.log_le_log (by norm_num) hq1R)
    have hhi : Real.log ((q : ℝ)) ≤ (1.31695798 : ℝ) :=
      le_trans (Real.log_le_log (by linarith) hq2R) log_37320511_ub
    rw [abs_le]
    constructor <;> · push_cast; linarith
  have ha : ∃ r : ℚ, asinTestEngine.asin (DecVal.fin 1) = DecVal.fin r
      ∧ |(r : ℝ) - Real.arcsin 1| ≤ 4 / 10 ^ 7 := by
    refine ⟨(1.5707963268 : ℚ), rfl, ?_⟩
    rw [Real.arcsin_one, abs_le]
    have hpi1 := Real.pi_gt_d20
    have hpi2 := Real.pi_lt_d20
    constructor <;> · push_cast; linarith
  exact (C7_asin asinTestEngine h9 h1 hs hln ha).2.2
